import Mathlib

/-!
Verification of the authored control logic of the `threejs-rapier-test`
application (`src/App.tsx`): the fixed-timestep accumulator loop of the
`frame` callback, the `FPSTracker.update` estimator, and the FPS-gated
`spawnCube` spawner.  Time quantities (clock deltas, `performance.now()`
samples, the accumulator) are modelled as exact rationals; the third-party
physics engine's `world.step()` is modelled as an arbitrary per-body
transform, since its internals are external to this repository.
-/

namespace App

/-- The constant `fixedTimestep` from `App.tsx` line 131:
`const fixedTimestep = 0.016`. -/
def fixedTimestep : ℚ := 16 / 1000

/-- The per-frame step cap: the loop guard `steps < 5` in `App.tsx` line 138. -/
def maxStepsPerFrame : ℕ := 5

/-- The while loop of `frame` (`App.tsx` lines 137-142):
`while (accumulator >= fixedTimestep && steps < 5) { world.step();
accumulator -= fixedTimestep; steps += 1; }`.  The fuel argument is the
number of steps still allowed this invocation; the result is the final
accumulator together with the number of `world.step()` calls made. -/
def stepLoopAux : ℕ → ℚ → ℚ × ℕ
  | 0, acc => (acc, 0)
  | n + 1, acc =>
    if fixedTimestep ≤ acc then
      let r := stepLoopAux n (acc - fixedTimestep)
      (r.1, r.2 + 1)
    else
      (acc, 0)

/-- One invocation of the `frame` stepping logic (`App.tsx` lines 133-142),
restricted to the accumulator: add the clock delta, then run the capped
while loop.  Returns the accumulator left behind and the steps taken. -/
def frame (acc dt : ℚ) : ℚ × ℕ :=
  stepLoopAux maxStepsPerFrame (acc + dt)

/-- A sequence of `frame` invocations with the given elapsed-time samples,
starting from accumulator `acc` (initially `0` at `App.tsx` line 132).
Returns the final accumulator and the total number of `world.step()` calls. -/
def runFrames : ℚ → List ℚ → ℚ × ℕ
  | acc, [] => (acc, 0)
  | acc, dt :: ds =>
    let r := frame acc dt
    let rest := runFrames r.1 ds
    (rest.1, r.2 + rest.2)

/-- Returns `true` when, along the run, every invocation's while loop exits with
fewer than `maxStepsPerFrame` steps taken, i.e. the per-frame cap never
cut the loop short. -/
def capFree : ℚ → List ℚ → Bool
  | _, [] => true
  | acc, dt :: ds =>
    decide ((frame acc dt).2 < maxStepsPerFrame) && capFree (frame acc dt).1 ds

theorem stepLoopAux_conserve (n : ℕ) (acc : ℚ) :
    (stepLoopAux n acc).1 + (stepLoopAux n acc).2 * fixedTimestep = acc := by
  induction n generalizing acc with
  | zero => simp [stepLoopAux]
  | succ n ih =>
    by_cases h : fixedTimestep ≤ acc
    · have := ih (acc - fixedTimestep)
      simp only [stepLoopAux, if_pos h]
      push_cast
      linarith
    · simp [stepLoopAux, if_neg h]

theorem stepLoopAux_nonneg (n : ℕ) (acc : ℚ) (h : 0 ≤ acc) :
    0 ≤ (stepLoopAux n acc).1 := by
  induction n generalizing acc with
  | zero => simpa [stepLoopAux] using h
  | succ n ih =>
    by_cases hle : fixedTimestep ≤ acc
    · have hT : (0 : ℚ) ≤ fixedTimestep := by norm_num [fixedTimestep]
      have := ih (acc - fixedTimestep) (by linarith)
      simpa [stepLoopAux, if_pos hle] using this
    · simpa [stepLoopAux, if_neg hle] using h

theorem stepLoopAux_le (n : ℕ) (acc : ℚ) : (stepLoopAux n acc).2 ≤ n := by
  induction n generalizing acc with
  | zero => simp [stepLoopAux]
  | succ n ih =>
    by_cases hle : fixedTimestep ≤ acc
    · have := ih (acc - fixedTimestep)
      simp only [stepLoopAux, if_pos hle]
      omega
    · simp [stepLoopAux, if_neg hle]

theorem stepLoopAux_lt_of_steps_lt (n : ℕ) (acc : ℚ)
    (h : (stepLoopAux n acc).2 < n) : (stepLoopAux n acc).1 < fixedTimestep := by
  induction n generalizing acc with
  | zero => simp [stepLoopAux] at h
  | succ n ih =>
    by_cases hle : fixedTimestep ≤ acc
    · have h' : (stepLoopAux n (acc - fixedTimestep)).2 < n := by
        simp only [stepLoopAux, if_pos hle] at h
        omega
      have := ih (acc - fixedTimestep) h'
      simpa [stepLoopAux, if_pos hle] using this
    · simp only [stepLoopAux, if_neg hle]
      exact lt_of_not_le hle

theorem runFrames_conserve (dts : List ℚ) (acc : ℚ) :
    (runFrames acc dts).1 + (runFrames acc dts).2 * fixedTimestep = acc + dts.sum := by
  induction dts generalizing acc with
  | nil => simp [runFrames]
  | cons dt ds ih =>
    have h1 := stepLoopAux_conserve maxStepsPerFrame (acc + dt)
    have h2 := ih (frame acc dt).1
    simp only [runFrames, List.sum_cons]
    push_cast
    push_cast at h2
    have : (frame acc dt).1 + (frame acc dt).2 * fixedTimestep = acc + dt := h1
    nlinarith [h2, this]

theorem runFrames_nonneg (dts : List ℚ) (acc : ℚ) (hacc : 0 ≤ acc)
    (hdt : ∀ dt ∈ dts, 0 ≤ dt) : 0 ≤ (runFrames acc dts).1 := by
  induction dts generalizing acc with
  | nil => simpa [runFrames] using hacc
  | cons dt ds ih =>
    have hd : 0 ≤ dt := hdt dt (List.mem_cons_self dt ds)
    have hfr : 0 ≤ (frame acc dt).1 :=
      stepLoopAux_nonneg maxStepsPerFrame (acc + dt) (by linarith)
    have := ih (frame acc dt).1 hfr (fun d hd => hdt d (List.mem_cons_of_mem dt hd))
    simpa [runFrames] using this

theorem fixedTimestep_pos : (0 : ℚ) < fixedTimestep := by norm_num [fixedTimestep]

theorem floor_div_add_mul (a : ℚ) (s : ℕ) :
    ⌊(a + s * fixedTimestep) / fixedTimestep⌋ = ⌊a / fixedTimestep⌋ + s := by
  have hT : fixedTimestep ≠ 0 := ne_of_gt fixedTimestep_pos
  rw [add_div, mul_div_assoc, div_self hT, mul_one, Int.floor_add_nat]

theorem floor_div_eq_zero (a : ℚ) (h0 : 0 ≤ a) (h1 : a < fixedTimestep) :
    ⌊a / fixedTimestep⌋ = 0 := by
  have hT := fixedTimestep_pos
  rw [Int.floor_eq_zero_iff]
  constructor
  · exact div_nonneg h0 (le_of_lt hT)
  · exact (div_lt_one hT).mpr h1

theorem capFree_runFrames_lt (dts : List ℚ) (acc : ℚ) (hlt : acc < fixedTimestep)
    (hcf : capFree acc dts = true) : (runFrames acc dts).1 < fixedTimestep := by
  induction dts generalizing acc with
  | nil => simpa [runFrames] using hlt
  | cons dt ds ih =>
    simp only [capFree, Bool.and_eq_true, decide_eq_true_eq] at hcf
    have hstep : (frame acc dt).1 < fixedTimestep :=
      stepLoopAux_lt_of_steps_lt maxStepsPerFrame (acc + dt) hcf.1
    have := ih (frame acc dt).1 hstep hcf.2
    simpa [runFrames] using this

/-- C1: for every sequence of frame-loop invocations with non-negative
elapsed-time samples, starting from accumulator `0`: the accumulator is
non-negative after every invocation; the total number of `world.step()`
calls equals `⌊total accumulated / FIXED_STEP⌋` minus the steps still
pending because of the per-frame cap (exactly `⌊final accumulator /
FIXED_STEP⌋`); and when the cap was never hit the final accumulator lies in
`[0, FIXED_STEP)` and the step total is exactly `⌊total / FIXED_STEP⌋`. -/
theorem frame_loop_accounting (dts : List ℚ) (hdt : ∀ dt ∈ dts, 0 ≤ dt) :
    (∀ p, p <+: dts → 0 ≤ (runFrames 0 p).1) ∧
    ((runFrames 0 dts).2 : ℤ) =
      ⌊dts.sum / fixedTimestep⌋ - ⌊(runFrames 0 dts).1 / fixedTimestep⌋ ∧
    (capFree 0 dts = true →
      0 ≤ (runFrames 0 dts).1 ∧ (runFrames 0 dts).1 < fixedTimestep ∧
      ((runFrames 0 dts).2 : ℤ) = ⌊dts.sum / fixedTimestep⌋) := by
  have hnn : 0 ≤ (runFrames 0 dts).1 := runFrames_nonneg dts 0 le_rfl hdt
  have hcons := runFrames_conserve dts 0
  have hfloor : ⌊dts.sum / fixedTimestep⌋ =
      ⌊(runFrames 0 dts).1 / fixedTimestep⌋ + (runFrames 0 dts).2 := by
    have : dts.sum = (runFrames 0 dts).1 + (runFrames 0 dts).2 * fixedTimestep := by
      linarith
    rw [this, floor_div_add_mul]
  refine ⟨?_, by omega, ?_⟩
  · intro p hp
    exact runFrames_nonneg p 0 le_rfl fun dt hmem => hdt dt (hp.subset hmem)
  · intro hcf
    have hlt := capFree_runFrames_lt dts 0 fixedTimestep_pos hcf
    have hz := floor_div_eq_zero _ hnn hlt
    exact ⟨hnn, hlt, by omega⟩

/-- Closed instantiation of `frame_loop_accounting` at the sample
sequence `[0.05, 0.03]`. -/
theorem frame_loop_accounting_witness :
    (∀ p, p <+: [(5 : ℚ) / 100, 3 / 100] → 0 ≤ (runFrames 0 p).1) ∧
    ((runFrames 0 [(5 : ℚ) / 100, 3 / 100]).2 : ℤ) =
      ⌊[(5 : ℚ) / 100, 3 / 100].sum / fixedTimestep⌋ -
        ⌊(runFrames 0 [(5 : ℚ) / 100, 3 / 100]).1 / fixedTimestep⌋ ∧
    (capFree 0 [(5 : ℚ) / 100, 3 / 100] = true →
      0 ≤ (runFrames 0 [(5 : ℚ) / 100, 3 / 100]).1 ∧
      (runFrames 0 [(5 : ℚ) / 100, 3 / 100]).1 < fixedTimestep ∧
      ((runFrames 0 [(5 : ℚ) / 100, 3 / 100]).2 : ℤ) =
        ⌊[(5 : ℚ) / 100, 3 / 100].sum / fixedTimestep⌋) :=
  frame_loop_accounting [5 / 100, 3 / 100] (by norm_num)

/-- C2: a single `frame` invocation makes at most `MAX_STEPS_PER_FRAME = 5`
physics `step()` calls, whatever the accumulator held at entry. -/
theorem frame_step_cap (acc dt : ℚ) : (frame acc dt).2 ≤ maxStepsPerFrame :=
  stepLoopAux_le maxStepsPerFrame (acc + dt)

/-- C7: with `FIXED_STEP = 0.016` and the accumulator initially `0`, a single
`frame` invocation with elapsed-time sample `0.05` takes exactly `3` physics
steps and leaves the accumulator at `0.002`. -/
theorem frame_scenario_005 : frame 0 (5 / 100) = (2 / 1000, 3) := by
  norm_num [frame, maxStepsPerFrame, stepLoopAux, fixedTimestep]

/-- C8: with `FIXED_STEP = 0.016` and cap `5`, a single `frame` invocation
with elapsed-time sample `0.2` takes exactly `5` physics steps and leaves the
accumulator at `0.2 - 5 * 0.016 = 0.12`: the simulation falls behind. -/
theorem frame_scenario_02 : frame 0 (2 / 10) = (12 / 100, 5) := by
  norm_num [frame, maxStepsPerFrame, stepLoopAux, fixedTimestep]

/-- The `FPSTracker` class state (`App.tsx` lines 24-28): the last computed
estimate `fps`, the frames counted in the current window, and the window
start time (`performance.now()` milliseconds, modelled as a rational). -/
structure FPSTracker where
  fps : ℤ
  frameCount : ℕ
  lastTime : ℚ
deriving DecidableEq

/-- The method `FPSTracker.update` (`App.tsx` lines 29-40), with the `performance.now()`
sample passed in as `currentTime`.  Returns the new tracker state and the
returned `fps` value.  JavaScript `Math.round` agrees with Mathlib `round`
(both are `⌊x + 1/2⌋`). -/
def FPSTracker.update (t : FPSTracker) (currentTime : ℚ) : FPSTracker × ℤ :=
  let frameCount := t.frameCount + 1
  if t.lastTime + 500 ≤ currentTime then
    let fps := round (((frameCount : ℚ) * 1000) / (currentTime - t.lastTime))
    (⟨fps, 0, currentTime⟩, fps)
  else
    (⟨t.fps, frameCount, t.lastTime⟩, t.fps)

/-- A sequence of `update` calls at the given `performance.now()` samples,
collecting the returned values. -/
def FPSTracker.updateRun (t : FPSTracker) : List ℚ → FPSTracker × List ℤ
  | [] => (t, [])
  | now :: rest =>
    let r := t.update now
    let rr := r.1.updateRun rest
    (rr.1, r.2 :: rr.2)

theorem FPSTracker.updateRun_stable (times : List ℚ) (t : FPSTracker)
    (h : ∀ x ∈ times, x < t.lastTime + 500) :
    (t.updateRun times).2 = List.replicate times.length t.fps := by
  induction times generalizing t with
  | nil => simp [updateRun]
  | cons now rest ih =>
    have hnow : ¬ t.lastTime + 500 ≤ now :=
      not_le.mpr (h now (List.mem_cons_self now rest))
    have ht : t.update now = (⟨t.fps, t.frameCount + 1, t.lastTime⟩, t.fps) := by
      simp [update, if_neg hnow]
    have := ih ⟨t.fps, t.frameCount + 1, t.lastTime⟩
      (fun x hx => h x (List.mem_cons_of_mem now hx))
    simp [updateRun, ht, this, List.replicate_succ]

/-- C3: each `FPSTracker.update` call records one frame; when at least 500ms
have elapsed since the window start it computes
`round(framesInWindow * 1000 / elapsedMs)` (the just-recorded frame
included), resets the window start to `now` and the counter to `0`, and
returns the fresh estimate; otherwise it returns the previous estimate with
`fps` and `lastTime` unchanged, so any run of calls that stays below the
500ms threshold returns the identical value every time. -/
theorem fpsTracker_update_spec (t : FPSTracker) (now : ℚ) :
    (t.lastTime + 500 ≤ now →
      (t.update now).2 =
        round ((((t.frameCount : ℚ) + 1) * 1000) / (now - t.lastTime)) ∧
      (t.update now).1 = ⟨(t.update now).2, 0, now⟩) ∧
    (¬ t.lastTime + 500 ≤ now →
      (t.update now).2 = t.fps ∧
      (t.update now).1 = ⟨t.fps, t.frameCount + 1, t.lastTime⟩) ∧
    (∀ times : List ℚ, (∀ x ∈ times, x < t.lastTime + 500) →
      (t.updateRun times).2 = List.replicate times.length t.fps) := by
  refine ⟨fun h => ?_, fun h => ?_, fun times ht => FPSTracker.updateRun_stable times t ht⟩
  · constructor
    · simp [FPSTracker.update, if_pos h]
    · simp [FPSTracker.update, if_pos h]
  · constructor
    · simp [FPSTracker.update, if_neg h]
    · simp [FPSTracker.update, if_neg h]

/-- Closed instantiation of `fpsTracker_update_spec`: a tracker whose window
started at time `0` with `0` frames counted recomputes `round(1000/500) = 2`
when updated at time `500`, and a tracker with estimate `7` queried at times
`100` and `200` (both below the threshold) answers `7` both times. -/
theorem fpsTracker_update_spec_witness :
    ((⟨0, 0, 0⟩ : FPSTracker).update 500).2 = 2 ∧
    ((⟨7, 0, 0⟩ : FPSTracker).updateRun [100, 200]).2 = [7, 7] := by
  constructor
  · have h := (fpsTracker_update_spec ⟨0, 0, 0⟩ 500).1 (by norm_num)
    rw [h.1]
    norm_num
  · have h := (fpsTracker_update_spec ⟨7, 0, 0⟩ 100).2.2 [100, 200]
      (by intro x hx; simp at hx; rcases hx with h | h <;> norm_num [h])
    simpa using h

/-- A 3-component vector (positions, half-extents). -/
structure Vec3 where
  x : ℚ
  y : ℚ
  z : ℚ
deriving DecidableEq

/-- A quaternion (orientations). -/
structure Quat4 where
  x : ℚ
  y : ℚ
  z : ℚ
  w : ℚ
deriving DecidableEq

/-- The identity quaternion, the default orientation of a fresh mesh and a
fresh rigid body. -/
def identityQuat : Quat4 := ⟨0, 0, 0, 1⟩

/-- A Rapier rigid body as far as this app observes it: its `translation()`
and `rotation()`. -/
structure RigidBody where
  translation : Vec3
  rotation : Quat4
deriving DecidableEq

/-- A Rapier cuboid collider as configured by `spawnCube`: half-extents plus
the restitution and friction set at `App.tsx` lines 123-124. -/
structure ColliderData where
  halfExtents : Vec3
  restitution : ℚ
  friction : ℚ
deriving DecidableEq

/-- One element of the `cubes` array (`App.tsx` line 109): a three.js mesh
(its transform and shadow flags) paired with its rigid body and the body's
collider.  `uid` tags the pair's identity so that append-only behaviour of
the collection is expressible. -/
structure CubePair where
  uid : ℕ
  meshPos : Vec3
  meshQuat : Quat4
  castShadow : Bool
  receiveShadow : Bool
  body : RigidBody
  collider : ColliderData
deriving DecidableEq

/-- The pair built by one successful `spawnCube` (`App.tsx` lines 114-125):
mesh at the three.js default transform with both shadow flags set, body at
`(3·r1, 15, 3·r2)` where `r1, r2` are the two `Math.random()` draws, collider
a unit-half-extent cuboid with restitution and friction `0.5`. -/
def mkCubePair (uid : ℕ) (r1 r2 : ℚ) : CubePair :=
  { uid := uid
    meshPos := ⟨0, 0, 0⟩
    meshQuat := identityQuat
    castShadow := true
    receiveShadow := true
    body := { translation := ⟨r1 * 3, 15, r2 * 3⟩, rotation := identityQuat }
    collider := { halfExtents := ⟨1, 1, 1⟩, restitution := 1 / 2, friction := 1 / 2 } }

/-- The mutable state of the scene that the authored logic touches: the
accumulator, the FPS tracker, the value last pushed to each React readout,
the `cubes` array, and counters for the scene-graph meshes, world rigid
bodies and world colliders created so far. -/
structure AppState where
  accumulator : ℚ
  fpsTracker : FPSTracker
  fpsShown : ℤ
  cubes : List CubePair
  cubesAmount : ℕ
  sceneMeshes : ℕ
  worldBodies : ℕ
  worldColliders : ℕ
  nextId : ℕ
deriving DecidableEq

/-- The function `spawnCube` (`App.tsx` lines 111-128): gated on `fpsTracker.fps > 50`;
when the gate passes it adds a mesh to the scene, creates a rigid body and
its collider in the world, pushes the pair onto `cubes` and publishes the
new length; otherwise it does nothing. -/
def spawnCube (s : AppState) (r1 r2 : ℚ) : AppState :=
  if 50 < s.fpsTracker.fps then
    { s with
      sceneMeshes := s.sceneMeshes + 1
      worldBodies := s.worldBodies + 1
      worldColliders := s.worldColliders + 1
      cubes := s.cubes ++ [mkCubePair s.nextId r1 r2]
      cubesAmount := s.cubes.length + 1
      nextId := s.nextId + 1 }
  else
    s

/-- The body of the `cubes.forEach` sync (`App.tsx` lines 144-147): copy the
rigid body's translation and rotation onto the mesh. -/
def syncPair (p : CubePair) : CubePair :=
  { p with meshPos := p.body.translation, meshQuat := p.body.rotation }

/-- The whole sync pass over the `cubes` array. -/
def syncAll (cs : List CubePair) : List CubePair := cs.map syncPair

/-- One `world.step()` as this app observes it: every rigid body is advanced
by the engine's (external, here arbitrary) transform `w`; nothing else about
a pair changes, and no pair is created or destroyed. -/
def stepWorld (w : RigidBody → RigidBody) (cs : List CubePair) : List CubePair :=
  cs.map fun p => { p with body := w p.body }

/-- Iterated stepping: `n` consecutive `world.step()` calls. -/
def stepWorldN (w : RigidBody → RigidBody) : ℕ → List CubePair → List CubePair
  | 0, cs => cs
  | n + 1, cs => stepWorldN w n (stepWorld w cs)

/-- The observable actions of one `frame` invocation, in order. -/
inductive Action where
  | physicsStep
  | syncPairAction (uid : ℕ)
  | render
deriving DecidableEq

/-- One invocation of the `frame` callback (`App.tsx` lines 133-150) on the
full app state: add the clock delta to the accumulator, update the FPS
tracker with the `performance.now()` sample `now`, run the capped stepping
loop (each iteration one `world.step()`), sync every pair, and render.  The
second component is the trace of actions in the order the code performs
them. -/
def frameApp (w : RigidBody → RigidBody) (s : AppState) (dt now : ℚ) :
    AppState × List Action :=
  let fr := s.fpsTracker.update now
  let loop := stepLoopAux maxStepsPerFrame (s.accumulator + dt)
  let synced := syncAll (stepWorldN w loop.2 s.cubes)
  ({ s with
      accumulator := loop.1
      fpsTracker := fr.1
      fpsShown := fr.2
      cubes := synced },
   List.replicate loop.2 Action.physicsStep ++
     synced.map (fun p => Action.syncPairAction p.uid) ++ [Action.render])

/-- The two callback sources that mutate the state: a spawner tick
(`setInterval(spawnCube, 100)`, with its two `Math.random()` draws) and a
frame callback (`renderer.setAnimationLoop(frame)`, with its clock delta and
`performance.now()` sample). -/
inductive AppEvent where
  | spawn (r1 r2 : ℚ)
  | frameEv (dt now : ℚ)

/-- Dispatch of one event on the app state. -/
def stepApp (w : RigidBody → RigidBody) (s : AppState) : AppEvent → AppState
  | .spawn r1 r2 => spawnCube s r1 r2
  | .frameEv dt now => (frameApp w s dt now).1

/-- A whole interleaving of spawner ticks and frame callbacks. -/
def runApp (w : RigidBody → RigidBody) (s : AppState) (es : List AppEvent) : AppState :=
  es.foldl (stepApp w) s

theorem stepWorldN_length (w : RigidBody → RigidBody) (n : ℕ) (cs : List CubePair) :
    (stepWorldN w n cs).length = cs.length := by
  induction n generalizing cs with
  | zero => rfl
  | succ n ih => simp [stepWorldN, ih, stepWorld]

theorem stepWorldN_map_uid (w : RigidBody → RigidBody) (n : ℕ) (cs : List CubePair) :
    (stepWorldN w n cs).map CubePair.uid = cs.map CubePair.uid := by
  induction n generalizing cs with
  | zero => rfl
  | succ n ih =>
    rw [stepWorldN, ih, stepWorld, List.map_map]
    rfl

theorem frameApp_map_uid (w : RigidBody → RigidBody) (s : AppState) (dt now : ℚ) :
    (frameApp w s dt now).1.cubes.map CubePair.uid = s.cubes.map CubePair.uid := by
  show (syncAll (stepWorldN w _ s.cubes)).map CubePair.uid = s.cubes.map CubePair.uid
  rw [syncAll, List.map_map]
  have : CubePair.uid ∘ syncPair = CubePair.uid := rfl
  rw [this, stepWorldN_map_uid]

theorem stepApp_uid_extends (w : RigidBody → RigidBody) (s : AppState) (e : AppEvent) :
    s.cubes.map CubePair.uid <+: (stepApp w s e).cubes.map CubePair.uid := by
  cases e with
  | spawn r1 r2 =>
    by_cases h : 50 < s.fpsTracker.fps
    · show s.cubes.map CubePair.uid <+: (spawnCube s r1 r2).cubes.map CubePair.uid
      simp only [spawnCube, if_pos h, List.map_append]
      exact List.prefix_append _ _
    · show s.cubes.map CubePair.uid <+: (spawnCube s r1 r2).cubes.map CubePair.uid
      simp [spawnCube, if_neg h]
  | frameEv dt now =>
    show s.cubes.map CubePair.uid <+: (frameApp w s dt now).1.cubes.map CubePair.uid
    rw [frameApp_map_uid]

/-- C4: a `spawnCube` invocation appends a new body-visual pair to `cubes`
if and only if the last computed FPS estimate is strictly greater than 50 at
invocation time; when the gate passes the appended pair is the freshly built
cube, and when it fails the invocation changes nothing. -/
theorem spawnCube_spec (s : AppState) (r1 r2 : ℚ) :
    ((spawnCube s r1 r2).cubes.length = s.cubes.length + 1 ↔ 50 < s.fpsTracker.fps) ∧
    (50 < s.fpsTracker.fps →
      (spawnCube s r1 r2).cubes = s.cubes ++ [mkCubePair s.nextId r1 r2]) ∧
    (¬ 50 < s.fpsTracker.fps → spawnCube s r1 r2 = s) := by
  by_cases h : 50 < s.fpsTracker.fps <;> simp [spawnCube, h]

/-- A concrete state whose last FPS estimate is `60`: the gate is open. -/
def highFpsState : AppState :=
  { accumulator := 0
    fpsTracker := ⟨60, 0, 0⟩
    fpsShown := 60
    cubes := []
    cubesAmount := 0
    sceneMeshes := 1
    worldBodies := 1
    worldColliders := 1
    nextId := 0 }

/-- Closed instantiation of `spawnCube_spec` at `highFpsState`: the gate is
open at estimate `60`, so the spawn appends exactly the fresh pair. -/
theorem spawnCube_spec_witness :
    ((spawnCube highFpsState 0 0).cubes.length = highFpsState.cubes.length + 1 ↔
      50 < highFpsState.fpsTracker.fps) ∧
    (spawnCube highFpsState 0 0).cubes =
      highFpsState.cubes ++ [mkCubePair highFpsState.nextId 0 0] :=
  ⟨(spawnCube_spec highFpsState 0 0).1,
    (spawnCube_spec highFpsState 0 0).2.1 (by norm_num [highFpsState])⟩

/-- C10: a `spawnCube` invocation whose FPS gate fails (estimate at most 50)
is a complete no-op: no scene mesh, no rigid body, no collider, no pair, no
readout change — the state is untouched. -/
theorem spawnCube_gate_noop (s : AppState) (r1 r2 : ℚ)
    (h : s.fpsTracker.fps ≤ 50) : spawnCube s r1 r2 = s := by
  simp [spawnCube, if_neg (not_lt.mpr h)]

/-- A concrete state whose last FPS estimate is `45`: the gate is closed. -/
def lowFpsState : AppState :=
  { accumulator := 0
    fpsTracker := ⟨45, 0, 0⟩
    fpsShown := 45
    cubes := []
    cubesAmount := 0
    sceneMeshes := 1
    worldBodies := 1
    worldColliders := 1
    nextId := 0 }

/-- Closed instantiation of `spawnCube_gate_noop` at `lowFpsState` (the
spec §8 scenario: estimate `45`, threshold `50`, no new pair). -/
theorem spawnCube_gate_noop_witness :
    lowFpsState.fpsTracker.fps ≤ 50 ∧
      spawnCube lowFpsState (1 / 2) (1 / 3) = lowFpsState :=
  ⟨by norm_num [lowFpsState],
    spawnCube_gate_noop lowFpsState (1 / 2) (1 / 3) (by norm_num [lowFpsState])⟩

/-- C5: in every `frame` invocation the action trace is exactly the physics
steps, then one sync per pair in order, then a single render — so the sync
pass runs unconditionally, exactly once per invocation, after the stepping
loop (even when zero steps ran) and before the render — and afterwards every
pair's mesh transform equals its body's translation and rotation, with the
pair count unchanged. -/
theorem frame_sync_then_render (w : RigidBody → RigidBody) (s : AppState) (dt now : ℚ) :
    (frameApp w s dt now).2 =
      List.replicate (stepLoopAux maxStepsPerFrame (s.accumulator + dt)).2
          Action.physicsStep ++
        (frameApp w s dt now).1.cubes.map (fun p => Action.syncPairAction p.uid) ++
        [Action.render] ∧
    (∀ p ∈ (frameApp w s dt now).1.cubes,
      p.meshPos = p.body.translation ∧ p.meshQuat = p.body.rotation) ∧
    (frameApp w s dt now).1.cubes.length = s.cubes.length := by
  refine ⟨rfl, ?_, ?_⟩
  · intro p hp
    have hp' : p ∈ (stepWorldN w _ s.cubes).map syncPair := hp
    obtain ⟨q, _, rfl⟩ := List.mem_map.1 hp'
    exact ⟨rfl, rfl⟩
  · show ((stepWorldN w _ s.cubes).map syncPair).length = s.cubes.length
    rw [List.length_map, stepWorldN_length]

/-- C6: the visual-transform sync pass is idempotent — syncing twice with no
intervening physics step leaves every visual transform exactly as it was
after the first sync. -/
theorem syncAll_idempotent (cs : List CubePair) : syncAll (syncAll cs) = syncAll cs := by
  rw [syncAll, syncAll, List.map_map]
  rfl

/-- C9: across any interleaving of spawner ticks and frame callbacks, the
`cubes` collection is append-only — the sequence of pair identities at the
start stays a prefix of the sequence at the end — and its length (the
displayed cube count) never decreases. -/
theorem cubes_append_only (w : RigidBody → RigidBody) (s : AppState)
    (es : List AppEvent) :
    s.cubes.map CubePair.uid <+: (runApp w s es).cubes.map CubePair.uid ∧
    s.cubes.length ≤ (runApp w s es).cubes.length := by
  have main : ∀ (es : List AppEvent) (s : AppState),
      s.cubes.map CubePair.uid <+: (runApp w s es).cubes.map CubePair.uid := by
    intro es
    induction es with
    | nil => intro s; simp [runApp]
    | cons e rest ih =>
      intro s
      have h1 := stepApp_uid_extends w s e
      have h2 := ih (stepApp w s e)
      have : runApp w s (e :: rest) = runApp w (stepApp w s e) rest := rfl
      rw [this]
      exact h1.trans h2
  refine ⟨main es s, ?_⟩
  have h := (main es s).length_le
  simpa using h

end App
